import Mathlib

/-!
Verification of the WeatherApp repository: a shallow embedding of the
forecast aggregator (src/components/Forecast.tsx), the city-search service
(src/services/weatherApi.ts) and the autocomplete keyboard state machine
(src/components/CityAutocomplete.tsx), with theorems settling the spec's
claims about them.

Modelling conventions:
- Epoch timestamps are natural numbers (seconds); JavaScript Date arithmetic
  is carried out in ℤ. The host's local timezone is modelled as a fixed
  offset `tz : ℤ` in seconds east of UTC (constant during one evaluation;
  the source never crosses a DST transition within one render).
- `date.toISOString().split('T')[0]` yields the UTC calendar date, a key
  whose lexicographic (localeCompare) order on ISO strings coincides with
  numeric order of the UTC day number `dt / 86400`; the embedding uses the
  day number as the key.
- JavaScript floating-point temperatures are modelled as ℤ (only their
  linear order matters to the claims); coordinate strings are parsed by an
  abstract `parseFloat : String → ℚ` passed as a parameter.
- A JavaScript value that may be `undefined` is an `Option`; string
  truthiness (empty string is falsy) is modelled explicitly.
- Presentation-only record fields (humidity, wind, icon, ...) that no claim
  mentions are elided from the structures.
-/

namespace WeatherApp

/-! ## Forecast aggregation (src/components/Forecast.tsx) -/

/-- One entry of the 3-hourly forecast list (interface ForecastItem in
src/services/weatherApi.ts): epoch seconds and the temperature fields.
`temp_min` and `temp_max` are the API-supplied per-instant bounds; they are
carried to show the aggregator does not consult them. -/
structure ForecastItem where
  dt : Nat
  temp : Int
  temp_min : Int
  temp_max : Int
  deriving DecidableEq, Repr

/-- The grouping key of an item: the UTC day number of its timestamp,
standing for the `toISOString().split('T')[0]` date string. -/
def dateKey (it : ForecastItem) : Nat :=
  it.dt / 86400

/-- `new Date(dt * 1000).getHours()` under a fixed offset `tz` seconds east
of UTC: the hour of the local wall-clock time. -/
def localHour (tz : Int) (dt : Nat) : Int :=
  ((dt : Int) + tz) % 86400 / 3600

/-- `d.setHours(0, 0, 0, 0)` on a Date holding epoch second `t`: the epoch
second of the local midnight that starts the local calendar day of `t`. -/
def localMidnight (tz t : Int) : Int :=
  t - (t + tz) % 86400

/-- Model of the display label the source builds for a bucket: either the
exact strings "Today" / "Tomorrow", or the locale weekday+month+day string
(represented by the day key it is formatted from). -/
inductive DisplayLabel where
  | todayLabel
  | tomorrowLabel
  | weekday (d : Nat)
  deriving DecidableEq, Repr

/-- The displayDate computation of Forecast.tsx: `new Date(dateKey)` parses
the ISO date string as UTC midnight of day `d`; `today` is `new Date()`
zeroed to local midnight; `tomorrow` is one day later; the bucket's date is
also zeroed to local midnight before comparison. -/
def displayLabel (tz now : Int) (d : Nat) : DisplayLabel :=
  let todayM := localMidnight tz now
  let forecastM := localMidnight tz ((d : Int) * 86400)
  if forecastM = todayM then DisplayLabel.todayLabel
  else if forecastM = todayM + 86400 then DisplayLabel.tomorrowLabel
  else DisplayLabel.weekday d

/-- `acc[dateKey].push(item)`, creating the group when the key is new: new
keys are appended at the end (JavaScript object property insertion order for
non-index string keys), and an existing group grows at its end. -/
def insertGrouped (acc : List (Nat × List ForecastItem)) (k : Nat)
    (it : ForecastItem) : List (Nat × List ForecastItem) :=
  match acc with
  | [] => [(k, [it])]
  | g :: rest =>
    if g.1 = k then (g.1, g.2 ++ [it]) :: rest
    else g :: insertGrouped rest k it

/-- The `reduce` of Forecast.tsx that groups forecast items by date key, as
the association list `Object.entries` later reads back. -/
def groupByDate (items : List ForecastItem) : List (Nat × List ForecastItem) :=
  items.foldl (fun acc it => insertGrouped acc (dateKey it) it) []

/-- The sort order of `.sort(([a], [b]) => a.localeCompare(b))`: ascending
date keys (localeCompare on ISO date strings is date order). -/
def keyLE (a b : Nat × List ForecastItem) : Prop :=
  a.1 ≤ b.1

instance : DecidableRel keyLE := fun a b => Nat.decLe a.1 b.1

instance : IsTotal (Nat × List ForecastItem) keyLE :=
  ⟨fun a b => Nat.le_total a.1 b.1⟩

instance : IsTrans (Nat × List ForecastItem) keyLE :=
  ⟨fun _ _ _ => Nat.le_trans⟩

/-- `Math.min(...xs)`: `none` stands for the `Infinity` of an empty spread,
which the aggregator never hits. -/
def jsMin : List Int → Option Int
  | [] => none
  | x :: xs => some (xs.foldl min x)

/-- `Math.max(...xs)`: `none` stands for `-Infinity`. -/
def jsMax : List Int → Option Int
  | [] => none
  | x :: xs => some (xs.foldl max x)

/-- One element of `dailyForecasts` in Forecast.tsx. `forecast` is an
`Option` because the source expression `noonForecast || items[mid] ||
items[0]` can in principle be `undefined` (only on an empty group, which
grouping never produces). -/
structure DailyBucket where
  date : Nat
  displayDate : DisplayLabel
  forecast : Option ForecastItem
  minTemp : Option Int
  maxTemp : Option Int
  allItems : List ForecastItem
  deriving DecidableEq, Repr

/-- The predicate of `items.find(...)`: local hour in [11, 14]. -/
def noonPred (tz : Int) (it : ForecastItem) : Bool :=
  decide (11 ≤ localHour tz it.dt) && decide (localHour tz it.dt ≤ 14)

/-- The body of the `.map(([dateKey, items]) => ...)` of Forecast.tsx:
representative point, day min/max over the `temp` field, display label. -/
def mkBucket (tz now : Int) (g : Nat × List ForecastItem) : DailyBucket :=
  let noonForecast := g.2.find? (noonPred tz)
  let forecast : Option ForecastItem :=
    match noonForecast with
    | some f => some f
    | none =>
      match g.2[g.2.length / 2]? with
      | some x => some x
      | none => g.2[0]?
  { date := g.1
    displayDate := displayLabel tz now g.1
    forecast := forecast
    minTemp := jsMin (g.2.map (fun it => it.temp))
    maxTemp := jsMax (g.2.map (fun it => it.temp))
    allItems := g.2 }

/-- The full `dailyForecasts` pipeline of Forecast.tsx: group by date key,
sort keys ascending, build each day's bucket, keep the first 5. -/
def dailyForecasts (tz now : Int) (items : List ForecastItem) :
    List DailyBucket :=
  ((List.insertionSort keyLE (groupByDate items)).map (mkBucket tz now)).take 5

/-! ## City search (src/services/weatherApi.ts, searchCities) -/

/-- One raw record of the geocoding response array, with JavaScript
optional fields as `Option`. `lat`/`lon` are the numeric strings the source
passes to `parseFloat`. -/
structure RawPlace where
  placeType : String
  shortName : Option String
  display_name : String
  country : Option String
  state : Option String
  region : Option String
  lat : String
  lon : String
  deriving DecidableEq, Repr

/-- The body the fetch response yields: `response.json()` may reject
(parseError), parse to a non-array value, or parse to an array of records. -/
inductive GeoBody where
  | parseError
  | nonArray
  | array (records : List RawPlace)
  deriving DecidableEq, Repr

/-- Outcome of the network fetch: rejection, or a response with an `ok`
status flag and a body. -/
inductive FetchOutcome where
  | networkError
  | response (ok : Bool) (body : GeoBody)
  deriving DecidableEq, Repr

/-- The CitySuggestion the service produces. In the source's mapping the
`country` and `state` fields are always strings (possibly empty), and the
coordinates are `parseFloat` results, modelled in ℚ. -/
structure CitySuggestion where
  name : String
  country : String
  state : String
  lat : Rat
  lon : Rat
  deriving DecidableEq, Repr

/-- JavaScript `a || b` on a possibly-undefined string `a`: `undefined` and
the empty string are falsy. -/
def jsOrStr (a : Option String) (b : String) : String :=
  match a with
  | some s => if s = "" then b else s
  | none => b

/-- `display_name.split(',')[0]`: the first comma-separated segment (split
always yields at least one segment). -/
def firstCommaSegment (s : String) : String :=
  (s.splitOn ",").headD ""

/-- The filter of searchCities: place-like entries only. -/
def placeFilter (r : RawPlace) : Bool :=
  r.placeType = "city" || r.placeType = "town" || r.placeType = "administrative"

/-- The `.map(...)` of searchCities: one raw record to a CitySuggestion,
with `parseFloat` abstracted as `pf`. -/
def toSuggestion (pf : String → Rat) (r : RawPlace) : CitySuggestion :=
  { name := jsOrStr r.shortName (firstCommaSegment r.display_name)
    country := jsOrStr r.country ""
    state := jsOrStr r.state (jsOrStr r.region "")
    lat := pf r.lat
    lon := pf r.lon }

/-- JavaScript String.prototype.trim: strip leading and trailing
whitespace (kept kernel-reducible, unlike String.trim). -/
def jsTrim (s : String) : String :=
  ⟨((s.data.dropWhile Char.isWhitespace).reverse.dropWhile Char.isWhitespace).reverse⟩

/-- The try-block of searchCities (weatherApi.ts lines 132-162): an
exception escaping it is `Except.error`. A network rejection and a body
whose JSON parse rejects are the throwing paths; a non-ok status and a
non-array body return the empty list without throwing. -/
def searchCitiesAux (pf : String → Rat) (limit : Nat) (outcome : FetchOutcome) :
    Except Unit (List CitySuggestion) :=
  match outcome with
  | FetchOutcome.networkError => Except.error ()
  | FetchOutcome.response ok body =>
    if ok = false then Except.ok []
    else
      match body with
      | GeoBody.parseError => Except.error ()
      | GeoBody.nonArray => Except.ok []
      | GeoBody.array records =>
        Except.ok (((records.filter placeFilter).take limit).map (toSuggestion pf))

/-- searchCities: the guard `!query.trim() || query.length < 2` (note: the
length test is on the untrimmed query) returns the empty list without
fetching; else the fetch runs under the catch-handler, which turns any
thrown error into the empty list. The Bool records whether a network
request was issued. -/
def searchCities (pf : String → Rat) (query : String) (limit : Nat)
    (outcome : FetchOutcome) : Bool × List CitySuggestion :=
  if jsTrim query = "" ∨ query.length < 2 then (false, [])
  else
    (true,
      match searchCitiesAux pf limit outcome with
      | Except.ok v => v
      | Except.error _ => [])

/-! ## Autocomplete keyboard state machine (src/components/CityAutocomplete.tsx) -/

/-- The component state the claims touch: input text, suggestion list,
panel-open flag, selection cursor (-1 = no selection). -/
structure AutoState where
  value : String
  suggestions : List CitySuggestion
  isOpen : Bool
  selectedIndex : Int
  deriving DecidableEq, Repr

/-- The keys handleKeyDown distinguishes. -/
inductive Key where
  | arrowDown
  | arrowUp
  | enter
  | escape
  | other
  deriving DecidableEq, Repr

/-- Placeholder for the out-of-bounds read `suggestions[selectedIndex]`,
which the Enter guard makes unreachable. -/
def defaultCity : CitySuggestion :=
  { name := "", country := "", state := "", lat := 0, lon := 0 }

/-- getCityDisplayName / the onChange string of handleSelect:
"Name, State, Country" with the state segment dropped when falsy. -/
def cityDisplayName (c : CitySuggestion) : String :=
  c.name ++ (if c.state = "" then "" else ", " ++ c.state) ++ ", " ++ c.country

/-- handleSelect: set the input text to the display name, emit the city via
onSelect, close the panel and clear the suggestions. -/
def handleSelect (s : AutoState) (c : CitySuggestion) :
    AutoState × Option CitySuggestion :=
  ({ s with value := cityDisplayName c, isOpen := false, suggestions := [] },
    some c)

/-- handleKeyDown of CityAutocomplete.tsx: early return when the panel is
closed or the list is empty; ArrowDown `prev < len - 1 ? prev + 1 : prev`;
ArrowUp `prev > 0 ? prev - 1 : -1`; Enter commits when
`0 <= selectedIndex < len`; Escape closes the panel. The second component
is the suggestion committed via onSelect, when any. -/
def handleKeyDown (s : AutoState) (k : Key) : AutoState × Option CitySuggestion :=
  if s.isOpen = false ∨ s.suggestions.length = 0 then (s, none)
  else
    match k with
    | Key.arrowDown =>
      ({ s with selectedIndex :=
          if s.selectedIndex < (s.suggestions.length : Int) - 1 then
            s.selectedIndex + 1
          else s.selectedIndex }, none)
    | Key.arrowUp =>
      ({ s with selectedIndex :=
          if 0 < s.selectedIndex then s.selectedIndex - 1 else -1 }, none)
    | Key.enter =>
      if 0 ≤ s.selectedIndex ∧ s.selectedIndex < (s.suggestions.length : Int) then
        handleSelect s (s.suggestions.getD s.selectedIndex.toNat defaultCity)
      else (s, none)
    | Key.escape => ({ s with isOpen := false }, none)
    | Key.other => (s, none)

/-- The state after one ArrowDown press. -/
def pressDown (s : AutoState) : AutoState :=
  (handleKeyDown s Key.arrowDown).1

/-- handleClickOutside: a mousedown whose target is outside the component's
container closes the panel; one inside it changes nothing. -/
def handleClickOutside (s : AutoState) (outsideTarget : Bool) : AutoState :=
  if outsideTarget then { s with isOpen := false } else s

/-- The debounced query effect's completion (CityAutocomplete.tsx lines
44-49): replace the suggestions with the results, open the panel exactly
when results arrived, reset the cursor. -/
def queryComplete (s : AutoState) (results : List CitySuggestion) : AutoState :=
  { s with suggestions := results
           isOpen := decide (0 < results.length)
           selectedIndex := -1 }

/-! ## Lemmas about the grouping pass -/

@[simp]
theorem mkBucket_date (tz now : Int) (g : Nat × List ForecastItem) :
    (mkBucket tz now g).date = g.1 := rfl

@[simp]
theorem mkBucket_allItems (tz now : Int) (g : Nat × List ForecastItem) :
    (mkBucket tz now g).allItems = g.2 := rfl

@[simp]
theorem mkBucket_minTemp (tz now : Int) (g : Nat × List ForecastItem) :
    (mkBucket tz now g).minTemp = jsMin (g.2.map (fun it => it.temp)) := rfl

@[simp]
theorem mkBucket_maxTemp (tz now : Int) (g : Nat × List ForecastItem) :
    (mkBucket tz now g).maxTemp = jsMax (g.2.map (fun it => it.temp)) := rfl

/-- What one step of the grouping reduce does to the key list. -/
theorem insertGrouped_keys (acc : List (Nat × List ForecastItem)) (k : Nat)
    (it : ForecastItem) :
    (insertGrouped acc k it).map Prod.fst =
      if k ∈ acc.map Prod.fst then acc.map Prod.fst
      else acc.map Prod.fst ++ [k] := by
  induction acc with
  | nil => simp [insertGrouped]
  | cons g rest ih =>
    by_cases hg : g.1 = k
    · simp [insertGrouped, hg]
    · simp only [insertGrouped, if_neg hg, List.map_cons, ih, List.mem_cons]
      by_cases hk : k ∈ rest.map Prod.fst
      · simp [hk, hg]
      · have hkg : ¬ k = g.1 := fun h => hg h.symm
        simp [hk, hkg]

/-- Where an element of `insertGrouped acc k it` comes from, given that the
keys of `acc` do not repeat. -/
theorem mem_insertGrouped {acc : List (Nat × List ForecastItem)} {k : Nat}
    {it : ForecastItem} {g : Nat × List ForecastItem}
    (hnd : (acc.map Prod.fst).Nodup)
    (hg : g ∈ insertGrouped acc k it) :
    (g ∈ acc ∧ g.1 ≠ k) ∨
    (∃ l, (k, l) ∈ acc ∧ g = (k, l ++ [it])) ∨
    (g = (k, [it]) ∧ k ∉ acc.map Prod.fst) := by
  induction acc with
  | nil =>
    simp only [insertGrouped, List.mem_singleton] at hg
    exact Or.inr (Or.inr ⟨hg, by simp⟩)
  | cons a rest ih =>
    simp only [List.map_cons, List.nodup_cons] at hnd
    by_cases ha : a.1 = k
    · simp only [insertGrouped, if_pos ha, List.mem_cons] at hg
      rcases hg with hg | hg
      · refine Or.inr (Or.inl ⟨a.2, ?_, ?_⟩)
        · simp [← ha]
        · simpa [ha] using hg
      · refine Or.inl ⟨List.mem_cons_of_mem a hg, ?_⟩
        intro hk
        apply hnd.1
        have hmem : g.1 ∈ rest.map Prod.fst := List.mem_map_of_mem Prod.fst hg
        rw [ha, ← hk]
        exact hmem
    · simp only [insertGrouped, if_neg ha, List.mem_cons] at hg
      rcases hg with hg | hg
      · exact Or.inl ⟨by simp [hg], by simpa [hg] using ha⟩
      · rcases ih hnd.2 hg with ⟨h1, h2⟩ | ⟨l, hl, hgl⟩ | ⟨h1, h2⟩
        · exact Or.inl ⟨List.mem_cons_of_mem a h1, h2⟩
        · exact Or.inr (Or.inl ⟨l, List.mem_cons_of_mem a hl, hgl⟩)
        · refine Or.inr (Or.inr ⟨h1, ?_⟩)
          simp only [List.map_cons, List.mem_cons]
          intro h
          rcases h with h | h
          · exact ha h.symm
          · exact h2 h

/-- The invariant the grouping reduce maintains: keys do not repeat, each
group holds exactly the already-seen items of its key in input order, every
seen item's key has a group, and every group's key was seen. -/
def GroupedModels (items : List ForecastItem)
    (acc : List (Nat × List ForecastItem)) : Prop :=
  (acc.map Prod.fst).Nodup ∧
  (∀ g ∈ acc, g.2 = items.filter (fun it => dateKey it = g.1)) ∧
  (∀ it ∈ items, dateKey it ∈ acc.map Prod.fst) ∧
  (∀ g ∈ acc, g.1 ∈ items.map dateKey)

theorem groupedModels_step {pre : List ForecastItem}
    {acc : List (Nat × List ForecastItem)} (it : ForecastItem)
    (h : GroupedModels pre acc) :
    GroupedModels (pre ++ [it]) (insertGrouped acc (dateKey it) it) := by
  obtain ⟨hnd, hcontent, hcover, hseen⟩ := h
  refine ⟨?_, ?_, ?_, ?_⟩
  · rw [insertGrouped_keys]
    by_cases hk : dateKey it ∈ acc.map Prod.fst
    · simpa [hk] using hnd
    · simp only [if_neg hk]
      rw [List.nodup_append]
      exact ⟨hnd, List.nodup_singleton _, by simpa using hk⟩
  · intro g hgmem
    rcases mem_insertGrouped hnd hgmem with ⟨h1, h2⟩ | ⟨l, hl, hgl⟩ | ⟨h1, h2⟩
    · rw [hcontent g h1, List.filter_append]
      have hne : ¬ dateKey it = g.1 := fun hh => h2 hh.symm
      simp [List.filter_singleton, hne]
    · have hl2 : l = pre.filter (fun x => decide (dateKey x = dateKey it)) := by
        simpa using hcontent (dateKey it, l) hl
      rw [hgl]
      simp only [List.filter_append]
      rw [← hl2]
      congr 1
      simp [List.filter_singleton]
    · rw [h1]
      simp only [List.filter_append]
      have hpre : pre.filter (fun x => decide (dateKey x = dateKey it)) = [] := by
        rw [List.filter_eq_nil_iff]
        intro a ha
        simp only [decide_eq_true_eq]
        intro hak
        exact h2 (hak ▸ hcover a ha)
      rw [hpre]
      simp [List.filter_singleton]
  · intro x hx
    have hsup : ∀ k, k ∈ acc.map Prod.fst ∨ k = dateKey it →
        k ∈ (insertGrouped acc (dateKey it) it).map Prod.fst := by
      intro k hk
      rw [insertGrouped_keys]
      by_cases hmem : dateKey it ∈ acc.map Prod.fst
      · rcases hk with hk | hk
        · simpa [hmem] using hk
        · simp only [if_pos hmem]
          rw [hk]
          exact hmem
      · rcases hk with hk | hk
        · simp [hmem, List.mem_append, hk]
        · simp [hmem, hk]
    rcases List.mem_append.mp hx with hx | hx
    · exact hsup _ (Or.inl (hcover x hx))
    · rcases List.mem_singleton.mp hx with rfl
      exact hsup _ (Or.inr rfl)
  · intro g hgmem
    rcases mem_insertGrouped hnd hgmem with ⟨h1, _⟩ | ⟨l, hl, hgl⟩ | ⟨h1, _⟩
    · exact List.mem_map.mpr (by
        rcases List.mem_map.mp (hseen g h1) with ⟨a, ha, hak⟩
        exact ⟨a, List.mem_append.mpr (Or.inl ha), hak⟩)
    · rw [hgl]
      exact List.mem_map.mpr ⟨it, List.mem_append.mpr (Or.inr (by simp)), rfl⟩
    · rw [h1]
      exact List.mem_map.mpr ⟨it, List.mem_append.mpr (Or.inr (by simp)), rfl⟩

theorem groupByDate_models_aux (items : List ForecastItem) :
    ∀ (pre : List ForecastItem) (acc : List (Nat × List ForecastItem)),
      GroupedModels pre acc →
      GroupedModels (pre ++ items)
        (items.foldl (fun a i => insertGrouped a (dateKey i) i) acc) := by
  induction items with
  | nil => intro pre acc h; simpa using h
  | cons i rest ih =>
    intro pre acc h
    rw [List.foldl_cons]
    have := ih (pre ++ [i]) _ (groupedModels_step i h)
    simpa [List.append_assoc] using this

theorem groupByDate_models (items : List ForecastItem) :
    GroupedModels items (groupByDate items) := by
  have := groupByDate_models_aux items [] [] ⟨by simp, by simp, by simp, by simp⟩
  simpa [groupByDate] using this

theorem groupByDate_keys_nodup (items : List ForecastItem) :
    ((groupByDate items).map Prod.fst).Nodup :=
  (groupByDate_models items).1

theorem groupByDate_content {items : List ForecastItem}
    {g : Nat × List ForecastItem} (hg : g ∈ groupByDate items) :
    g.2 = items.filter (fun it => dateKey it = g.1) :=
  (groupByDate_models items).2.1 g hg

theorem mem_groupByDate_keys {items : List ForecastItem} {k : Nat} :
    k ∈ (groupByDate items).map Prod.fst ↔ k ∈ items.map dateKey := by
  constructor
  · intro hk
    rcases List.mem_map.mp hk with ⟨g, hg, hgk⟩
    exact hgk ▸ (groupByDate_models items).2.2.2 g hg
  · intro hk
    rcases List.mem_map.mp hk with ⟨it, hit, hitk⟩
    exact hitk ▸ (groupByDate_models items).2.2.1 it hit

theorem groupByDate_nonempty {items : List ForecastItem}
    {g : Nat × List ForecastItem} (hg : g ∈ groupByDate items) : g.2 ≠ [] := by
  have hk : g.1 ∈ items.map dateKey := (groupByDate_models items).2.2.2 g hg
  rcases List.mem_map.mp hk with ⟨it, hit, hitk⟩
  rw [groupByDate_content hg]
  intro hnil
  rw [List.filter_eq_nil_iff] at hnil
  exact hnil it hit (by simp [hitk])

/-- The bucket count equals the number of distinct date keys. -/
theorem groupByDate_length (items : List ForecastItem) :
    (groupByDate items).length = (items.map dateKey).toFinset.card := by
  have hnd := groupByDate_keys_nodup items
  have hsame : ((groupByDate items).map Prod.fst).toFinset =
      (items.map dateKey).toFinset := by
    apply Finset.ext
    intro k
    simp only [List.mem_toFinset]
    exact mem_groupByDate_keys
  calc (groupByDate items).length
      = ((groupByDate items).map Prod.fst).length := (List.length_map _ _).symm
    _ = ((groupByDate items).map Prod.fst).toFinset.card :=
        (List.toFinset_card_of_nodup hnd).symm
    _ = (items.map dateKey).toFinset.card := by rw [hsame]

/-- Every bucket of dailyForecasts is built from one group of groupByDate. -/
theorem mem_dailyForecasts {tz now : Int} {items : List ForecastItem}
    {b : DailyBucket} (hb : b ∈ dailyForecasts tz now items) :
    ∃ g ∈ groupByDate items, b = mkBucket tz now g := by
  have hb2 := List.mem_of_mem_take hb
  rcases List.mem_map.mp hb2 with ⟨g, hg, hgb⟩
  exact ⟨g, (List.perm_insertionSort keyLE (groupByDate items)).mem_iff.mp hg,
    hgb.symm⟩

/-! ## Lemmas about jsMin and jsMax -/

theorem foldl_min_le_init : ∀ (xs : List Int) (a : Int), xs.foldl min a ≤ a := by
  intro xs
  induction xs with
  | nil => intro a; exact le_refl a
  | cons x xs ih =>
    intro a
    exact le_trans (ih (min a x)) (min_le_left a x)

theorem foldl_min_le_mem : ∀ (xs : List Int) (a x : Int), x ∈ xs →
    xs.foldl min a ≤ x := by
  intro xs
  induction xs with
  | nil => intro a x hx; exact absurd hx (List.not_mem_nil x)
  | cons y ys ih =>
    intro a x hx
    rcases List.mem_cons.mp hx with rfl | hx
    · exact le_trans (foldl_min_le_init ys (min a x)) (min_le_right a x)
    · exact ih (min a y) x hx

theorem foldl_min_mem : ∀ (xs : List Int) (a : Int),
    xs.foldl min a = a ∨ xs.foldl min a ∈ xs := by
  intro xs
  induction xs with
  | nil => intro a; exact Or.inl rfl
  | cons x xs ih =>
    intro a
    rcases ih (min a x) with h | h
    · rcases min_choice a x with hm | hm
      · exact Or.inl (by rw [List.foldl_cons, h, hm])
      · exact Or.inr (by rw [List.foldl_cons, h, hm]; exact List.mem_cons_self x xs)
    · exact Or.inr (List.mem_cons_of_mem x h)

theorem jsMin_spec {l : List Int} (h : l ≠ []) :
    ∃ m, jsMin l = some m ∧ m ∈ l ∧ ∀ x ∈ l, m ≤ x := by
  match l, h with
  | x :: xs, _ =>
    refine ⟨xs.foldl min x, rfl, ?_, ?_⟩
    · rcases foldl_min_mem xs x with h2 | h2
      · rw [h2]; exact List.mem_cons_self x xs
      · exact List.mem_cons_of_mem x h2
    · intro y hy
      rcases List.mem_cons.mp hy with rfl | hy
      · exact foldl_min_le_init xs y
      · exact foldl_min_le_mem xs x y hy

theorem foldl_max_init_le : ∀ (xs : List Int) (a : Int), a ≤ xs.foldl max a := by
  intro xs
  induction xs with
  | nil => intro a; exact le_refl a
  | cons x xs ih =>
    intro a
    exact le_trans (le_max_left a x) (ih (max a x))

theorem foldl_max_mem_le : ∀ (xs : List Int) (a x : Int), x ∈ xs →
    x ≤ xs.foldl max a := by
  intro xs
  induction xs with
  | nil => intro a x hx; exact absurd hx (List.not_mem_nil x)
  | cons y ys ih =>
    intro a x hx
    rcases List.mem_cons.mp hx with rfl | hx
    · exact le_trans (le_max_right a x) (foldl_max_init_le ys (max a x))
    · exact ih (max a y) x hx

theorem foldl_max_mem : ∀ (xs : List Int) (a : Int),
    xs.foldl max a = a ∨ xs.foldl max a ∈ xs := by
  intro xs
  induction xs with
  | nil => intro a; exact Or.inl rfl
  | cons x xs ih =>
    intro a
    rcases ih (max a x) with h | h
    · rcases max_choice a x with hm | hm
      · exact Or.inl (by rw [List.foldl_cons, h, hm])
      · exact Or.inr (by rw [List.foldl_cons, h, hm]; exact List.mem_cons_self x xs)
    · exact Or.inr (List.mem_cons_of_mem x h)

theorem jsMax_spec {l : List Int} (h : l ≠ []) :
    ∃ m, jsMax l = some m ∧ m ∈ l ∧ ∀ x ∈ l, x ≤ m := by
  match l, h with
  | x :: xs, _ =>
    refine ⟨xs.foldl max x, rfl, ?_, ?_⟩
    · rcases foldl_max_mem xs x with h2 | h2
      · rw [h2]; exact List.mem_cons_self x xs
      · exact List.mem_cons_of_mem x h2
    · intro y hy
      rcases List.mem_cons.mp hy with rfl | hy
      · exact foldl_max_init_le xs y
      · exact foldl_max_mem_le xs x y hy

/-! ## Claim theorems -/

/-- C1: for a forecast sequence spanning N ≥ 1 distinct UTC calendar dates,
dailyForecasts returns exactly min(N, 5) buckets, ordered by strictly
ascending date key. -/
theorem dailyForecasts_count_sorted (tz now : Int) (items : List ForecastItem)
    (_hN : 1 ≤ (items.map dateKey).toFinset.card) :
    (dailyForecasts tz now items).length =
      min ((items.map dateKey).toFinset.card) 5 ∧
    (dailyForecasts tz now items).Pairwise (fun a b => a.date < b.date) := by
  have hperm := List.perm_insertionSort keyLE (groupByDate items)
  constructor
  · rw [dailyForecasts, List.length_take, List.length_map, hperm.length_eq,
      groupByDate_length]
    exact Nat.min_comm 5 _
  · have hsorted : List.Pairwise keyLE
        (List.insertionSort keyLE (groupByDate items)) :=
      List.sorted_insertionSort keyLE (groupByDate items)
    have hkeysnd : ((List.insertionSort keyLE (groupByDate items)).map
        Prod.fst).Nodup := by
      have hmap := hperm.map Prod.fst
      exact (hmap.nodup_iff).mpr (groupByDate_keys_nodup items)
    have hne : List.Pairwise (fun a b : Nat × List ForecastItem => a.1 ≠ b.1)
        (List.insertionSort keyLE (groupByDate items)) :=
      List.pairwise_map.mp hkeysnd
    have hlt : List.Pairwise (fun a b : Nat × List ForecastItem => a.1 < b.1)
        (List.insertionSort keyLE (groupByDate items)) :=
      (hsorted.and hne).imp (fun h => lt_of_le_of_ne h.1 h.2)
    have hmapped : List.Pairwise (fun a b : DailyBucket => a.date < b.date)
        ((List.insertionSort keyLE (groupByDate items)).map (mkBucket tz now)) := by
      rw [List.pairwise_map]
      simpa using hlt
    exact List.Pairwise.sublist (List.take_sublist 5 _) hmapped

/-- Concrete input for the C1 witness: three 3-hourly points over two UTC
days. -/
def itemsTwoDays : List ForecastItem :=
  [⟨0, 5, 4, 6⟩, ⟨3600, 7, 6, 8⟩, ⟨90000, 3, 2, 4⟩]

/-- C1 witness: the theorem applied to a concrete two-day sequence. -/
theorem dailyForecasts_count_sorted_instance :
    (dailyForecasts 0 0 itemsTwoDays).length =
      min ((itemsTwoDays.map dateKey).toFinset.card) 5 ∧
    (dailyForecasts 0 0 itemsTwoDays).Pairwise (fun a b => a.date < b.date) :=
  dailyForecasts_count_sorted 0 0 itemsTwoDays (by decide)

/-- C3: each bucket's point list is exactly the input points of its date,
and minTemp/maxTemp equal the minimum/maximum of their `temp` fields:
each bound is attained by some bucket point and brackets every point's
temp (so minTemp ≤ temp ≤ maxTemp and minTemp ≤ maxTemp). -/
theorem bucket_minmax (tz now : Int) (items : List ForecastItem)
    (b : DailyBucket) (hb : b ∈ dailyForecasts tz now items) :
    b.allItems = items.filter (fun it => dateKey it = b.date) ∧
    ∃ m M : Int, b.minTemp = some m ∧ b.maxTemp = some M ∧ m ≤ M ∧
      (∃ p ∈ b.allItems, p.temp = m) ∧ (∃ p ∈ b.allItems, p.temp = M) ∧
      ∀ p ∈ b.allItems, m ≤ p.temp ∧ p.temp ≤ M := by
  rcases mem_dailyForecasts hb with ⟨g, hg, rfl⟩
  simp only [mkBucket_allItems, mkBucket_date, mkBucket_minTemp, mkBucket_maxTemp]
  refine ⟨groupByDate_content hg, ?_⟩
  have hne := groupByDate_nonempty hg
  have htne : g.2.map (fun it => it.temp) ≠ [] := by
    intro h
    exact hne (List.map_eq_nil_iff.mp h)
  obtain ⟨m, hm, hmmem, hmle⟩ := jsMin_spec htne
  obtain ⟨M, hM, hMmem, hMle⟩ := jsMax_spec htne
  rcases List.mem_map.mp hmmem with ⟨pm, hpm, hpmt⟩
  rcases List.mem_map.mp hMmem with ⟨pM, hpM, hpMt⟩
  refine ⟨m, M, hm, hM, hMle m hmmem, ⟨pm, hpm, hpmt⟩, ⟨pM, hpM, hpMt⟩, ?_⟩
  intro p hp
  have hpt : p.temp ∈ g.2.map (fun it => it.temp) :=
    List.mem_map_of_mem (fun it => it.temp) hp
  exact ⟨hmle p.temp hpt, hMle p.temp hpt⟩

/-- The day-zero bucket of `itemsTwoDays`, for the C3 witness. -/
def bucketDayZero : DailyBucket :=
  mkBucket 0 0 (0, [⟨0, 5, 4, 6⟩, ⟨3600, 7, 6, 8⟩])

/-- C3 witness: the theorem applied to a concrete bucket of a concrete
input. -/
theorem bucket_minmax_instance :
    bucketDayZero.allItems =
      itemsTwoDays.filter (fun it => dateKey it = bucketDayZero.date) ∧
    ∃ m M : Int, bucketDayZero.minTemp = some m ∧
      bucketDayZero.maxTemp = some M ∧ m ≤ M ∧
      (∃ p ∈ bucketDayZero.allItems, p.temp = m) ∧
      (∃ p ∈ bucketDayZero.allItems, p.temp = M) ∧
      ∀ p ∈ bucketDayZero.allItems, m ≤ p.temp ∧ p.temp ≤ M :=
  bucket_minmax 0 0 itemsTwoDays bucketDayZero (by decide)

/-- The property the `items.find(...)` predicate of Forecast.tsx decides:
local hour in [11, 14]. -/
def noonRange (tz : Int) (it : ForecastItem) : Prop :=
  11 ≤ localHour tz it.dt ∧ localHour tz it.dt ≤ 14

theorem noonPred_iff {tz : Int} {it : ForecastItem} :
    noonPred tz it = true ↔ noonRange tz it := by
  simp [noonPred, noonRange]

@[simp]
theorem mkBucket_forecast (tz now : Int) (g : Nat × List ForecastItem) :
    (mkBucket tz now g).forecast =
      match g.2.find? (noonPred tz) with
      | some f => some f
      | none =>
        match g.2[g.2.length / 2]? with
        | some x => some x
        | none => g.2[0]? := rfl

/-- find? decomposes its list: everything before the hit fails the
predicate. -/
theorem find?_decomp {α : Type _} {p : α → Bool} :
    ∀ {l : List α} {f : α}, l.find? p = some f →
      ∃ pre post, l = pre ++ f :: post ∧ ∀ x ∈ pre, p x = false := by
  intro l
  induction l with
  | nil => intro f h; simp [List.find?] at h
  | cons a rest ih =>
    intro f h
    by_cases ha : p a = true
    · rw [List.find?_cons_of_pos rest ha] at h
      have : a = f := by injection h
      subst this
      exact ⟨[], rest, rfl, by simp⟩
    · rw [List.find?_cons_of_neg rest ha] at h
      obtain ⟨pre, post, hl, hpre⟩ := ih h
      refine ⟨a :: pre, post, by rw [hl]; rfl, ?_⟩
      intro x hx
      rcases List.mem_cons.mp hx with rfl | hx
      · exact Bool.eq_false_iff.mpr ha
      · exact hpre x hx

/-- C2: in a chronologically ordered input, each bucket's representative is
the chronologically first point with local hour in [11, 14]; with no such
point, the element at index ⌊length/2⌋ of the bucket's point list. -/
theorem representative_midday (tz now : Int) (items : List ForecastItem)
    (hchrono : items.Pairwise (fun a b => a.dt ≤ b.dt))
    (b : DailyBucket) (hb : b ∈ dailyForecasts tz now items) :
    ∃ f, b.forecast = some f ∧ f ∈ b.allItems ∧
      ((noonRange tz f ∧ ∀ p ∈ b.allItems, p.dt < f.dt → ¬ noonRange tz p) ∨
       ((∀ p ∈ b.allItems, ¬ noonRange tz p) ∧
         b.allItems[b.allItems.length / 2]? = some f)) := by
  rcases mem_dailyForecasts hb with ⟨g, hg, rfl⟩
  have hcontent := groupByDate_content hg
  have hne := groupByDate_nonempty hg
  have hsorted : g.2.Pairwise (fun a b => a.dt ≤ b.dt) := by
    rw [hcontent]
    exact List.Pairwise.sublist (List.filter_sublist items) hchrono
  simp only [mkBucket_allItems]
  cases hfind : g.2.find? (noonPred tz) with
  | some f =>
    refine ⟨f, ?_, List.mem_of_find?_eq_some hfind, ?_⟩
    · rw [mkBucket_forecast, hfind]
    · left
      refine ⟨noonPred_iff.mp (List.find?_some hfind), ?_⟩
      obtain ⟨pre, post, hl, hpre⟩ := find?_decomp hfind
      intro p hp hlt hnr
      rw [hl] at hp hsorted
      rcases List.mem_append.mp hp with hp | hp
      · have hfalse : noonPred tz p = false := hpre p hp
        rw [← noonPred_iff] at hnr
        rw [hfalse] at hnr
        exact absurd hnr Bool.false_ne_true
      · rcases List.mem_cons.mp hp with rfl | hp
        · exact absurd hlt (lt_irrefl _)
        · have hcons : List.Pairwise (fun a b => a.dt ≤ b.dt) (f :: post) :=
            (List.pairwise_append.mp hsorted).2.1
          have hle : f.dt ≤ p.dt := (List.pairwise_cons.mp hcons).1 p hp
          exact absurd hlt (not_lt.mpr hle)
  | none =>
    have hall : ∀ p ∈ g.2, ¬ noonRange tz p := by
      intro p hp
      have hfp := List.find?_eq_none.mp hfind p hp
      rw [← noonPred_iff]
      intro hc
      exact hfp hc
    have hlen : g.2.length / 2 < g.2.length :=
      Nat.div_lt_self (List.length_pos.mpr hne) (by norm_num)
    refine ⟨g.2[g.2.length / 2], ?_, List.getElem_mem hlen,
      Or.inr ⟨hall, List.getElem?_eq_getElem hlen⟩⟩
    rw [mkBucket_forecast, hfind, List.getElem?_eq_getElem hlen]

/-- Concrete chronologically sorted one-day input with a noon point, for
the C2 witness. -/
def noonItems : List ForecastItem :=
  [⟨0, 5, 4, 6⟩, ⟨43200, 7, 6, 8⟩]

/-- Its single bucket. -/
def bucketNoon : DailyBucket :=
  mkBucket 0 0 (0, noonItems)

/-- C2 witness: the theorem applied to a concrete sorted input and its
bucket. -/
theorem representative_midday_instance :
    ∃ f, bucketNoon.forecast = some f ∧ f ∈ bucketNoon.allItems ∧
      ((noonRange 0 f ∧ ∀ p ∈ bucketNoon.allItems, p.dt < f.dt →
          ¬ noonRange 0 p) ∨
       ((∀ p ∈ bucketNoon.allItems, ¬ noonRange 0 p) ∧
         bucketNoon.allItems[bucketNoon.allItems.length / 2]? = some f)) :=
  representative_midday 0 0 noonItems (by decide) bucketNoon (by decide)

/-- A concrete stand-in for parseFloat in witnesses. -/
def pfZero : String → Rat := fun _ => 0

/-- The failure modes C4 enumerates: fetch rejection, non-success status,
body whose JSON parse rejects, body that is not an array. -/
def failedOutcome (o : FetchOutcome) : Prop :=
  o = FetchOutcome.networkError ∨
  (∃ body, o = FetchOutcome.response false body) ∨
  o = FetchOutcome.response true GeoBody.parseError ∨
  o = FetchOutcome.response true GeoBody.nonArray

/-- C4: searchCities never raises — every failure mode yields the empty
suggestion list (the function is total by construction: the catch handler
turns the throwing paths of searchCitiesAux into a plain value). -/
theorem searchCities_never_raises (pf : String → Rat) (q : String)
    (limit : Nat) (o : FetchOutcome) (h : failedOutcome o) :
    (searchCities pf q limit o).2 = [] := by
  unfold searchCities
  by_cases hq : jsTrim q = "" ∨ q.length < 2
  · rw [if_pos hq]
  · rw [if_neg hq]
    rcases h with rfl | ⟨body, rfl⟩ | rfl | rfl
    · rfl
    · cases body <;> rfl
    · rfl
    · rfl

/-- C4 witness: a rejected fetch yields the empty list. -/
theorem searchCities_never_raises_instance :
    (searchCities pfZero "London" 5 FetchOutcome.networkError).2 = [] :=
  searchCities_never_raises pfZero "London" 5 FetchOutcome.networkError
    (Or.inl rfl)

/-- C5 counterexample: the query " a " is shorter than 2 characters after
trimming, yet searchCities issues a network request for it (the source
tests `query.length < 2` on the untrimmed query). -/
theorem searchCities_trim_counterexample :
    (jsTrim " a ").length < 2 ∧
    (searchCities pfZero " a " 5 FetchOutcome.networkError).1 = true := by
  decide

/-- C5 as amended: a query that is empty after trimming, or whose untrimmed
length is below 2, returns the empty result set without a network call. -/
theorem searchCities_short_query (pf : String → Rat) (q : String)
    (limit : Nat) (o : FetchOutcome) (h : jsTrim q = "" ∨ q.length < 2) :
    searchCities pf q limit o = (false, []) := by
  unfold searchCities
  rw [if_pos h]

/-- C5 witness: a one-character query is rejected without a network call. -/
theorem searchCities_short_query_instance :
    searchCities pfZero "a" 5 FetchOutcome.networkError = (false, []) :=
  searchCities_short_query pfZero "a" 5 FetchOutcome.networkError
    (Or.inr (by decide))

theorem searchCities_array (pf : String → Rat) (q : String) (limit : Nat)
    (recs : List RawPlace) (hq : ¬(jsTrim q = "" ∨ q.length < 2)) :
    (searchCities pf q limit
        (FetchOutcome.response true (GeoBody.array recs))).2 =
      ((recs.filter placeFilter).take limit).map (toSuggestion pf) := by
  unfold searchCities
  rw [if_neg hq]
  rfl

/-- C6: for an array response, the suggestion list has at most `limit`
entries, each built from a place-like raw record, with the name falling
back to the first comma-segment of the display name exactly when the short
name is absent (or empty, which JavaScript treats as absent), and the
coordinates parsed from the record's strings. -/
theorem searchCities_wellformed (pf : String → Rat) (q : String)
    (limit : Nat) (recs : List RawPlace) :
    ((searchCities pf q limit
        (FetchOutcome.response true (GeoBody.array recs))).2).length ≤ limit ∧
    ∀ s ∈ (searchCities pf q limit
        (FetchOutcome.response true (GeoBody.array recs))).2,
      ∃ r ∈ recs,
        (r.placeType = "city" ∨ r.placeType = "town" ∨
          r.placeType = "administrative") ∧
        ((∃ n, r.shortName = some n ∧ n ≠ "" ∧ s.name = n) ∨
         ((r.shortName = none ∨ r.shortName = some "") ∧
           s.name = firstCommaSegment r.display_name)) ∧
        s.lat = pf r.lat ∧ s.lon = pf r.lon := by
  by_cases hq : jsTrim q = "" ∨ q.length < 2
  · unfold searchCities
    rw [if_pos hq]
    exact ⟨Nat.zero_le limit, by simp⟩
  · rw [searchCities_array pf q limit recs hq]
    constructor
    · rw [List.length_map]
      exact List.length_take_le limit _
    · intro s hs
      rcases List.mem_map.mp hs with ⟨r, hr, rfl⟩
      have hrf : r ∈ recs.filter placeFilter := List.mem_of_mem_take hr
      rcases List.mem_filter.mp hrf with ⟨hrmem, hrp⟩
      refine ⟨r, hrmem, ?_, ?_, rfl, rfl⟩
      · have := hrp
        simp only [placeFilter, Bool.or_eq_true, decide_eq_true_eq] at this
        tauto
      · cases hn : r.shortName with
        | none => exact Or.inr ⟨Or.inl rfl, by simp [toSuggestion, jsOrStr, hn]⟩
        | some n =>
          by_cases hempty : n = ""
          · refine Or.inr ⟨Or.inr (by rw [hempty]), ?_⟩
            simp [toSuggestion, jsOrStr, hn, hempty]
          · exact Or.inl ⟨n, rfl, hempty,
              by simp [toSuggestion, jsOrStr, hn, hempty]⟩

/-- A concrete raw geocoding record for the C6 witness. -/
def rawLondon : RawPlace :=
  { placeType := "city"
    shortName := some "London"
    display_name := "London, Greater London, England, United Kingdom"
    country := some "United Kingdom"
    state := some "England"
    region := none
    lat := "51.5"
    lon := "-0.1" }

/-- C6 witness: the theorem applied at a concrete query and a one-record
array response, instantiating the per-entry clause at the produced
suggestion. -/
theorem searchCities_wellformed_instance :
    ((searchCities pfZero "Lo" 5
        (FetchOutcome.response true (GeoBody.array [rawLondon]))).2).length ≤ 5 ∧
    (∃ r ∈ [rawLondon],
        (r.placeType = "city" ∨ r.placeType = "town" ∨
          r.placeType = "administrative") ∧
        ((∃ n, r.shortName = some n ∧ n ≠ "" ∧
            (toSuggestion pfZero rawLondon).name = n) ∨
         ((r.shortName = none ∨ r.shortName = some "") ∧
           (toSuggestion pfZero rawLondon).name =
             firstCommaSegment r.display_name)) ∧
        (toSuggestion pfZero rawLondon).lat = pfZero r.lat ∧
        (toSuggestion pfZero rawLondon).lon = pfZero r.lon) := by
  refine ⟨(searchCities_wellformed pfZero "Lo" 5 [rawLondon]).1, ?_⟩
  exact (searchCities_wellformed pfZero "Lo" 5 [rawLondon]).2
    (toSuggestion pfZero rawLondon) (by decide)

/-- C8 evaluation at a failing input (the claim is right, the code wrong):
in a UTC−1 timezone (offset −3600 s), with `now` = second 8686800 (local
noon of local day 100) and a single forecast point one hour later on the
same local day, the first — and only — bucket is labelled with a weekday
string, not "Today": the source parses the ISO date key as UTC midnight
but compares it against local midnight. The first conjunct states that the
point does fall on the current local date (equal local midnights). -/
theorem today_label_bug :
    localMidnight (-3600) 8690400 = localMidnight (-3600) 8686800 ∧
    (dailyForecasts (-3600) 8686800 [⟨8690400, 0, 0, 0⟩]).map
      DailyBucket.displayDate = [DisplayLabel.weekday 100] := by
  decide

/-! ## Keyboard state machine lemmas -/

theorem handleKeyDown_guard {s : AutoState} (h1 : s.isOpen = true)
    (h2 : s.suggestions.length ≠ 0) :
    ¬(s.isOpen = false ∨ s.suggestions.length = 0) := by
  intro h
  rcases h with h | h
  · exact Bool.false_ne_true ((h1 ▸ h : (true : Bool) = false)).symm
  · exact h2 h

theorem handleKeyDown_arrowDown {s : AutoState} (h1 : s.isOpen = true)
    (h2 : s.suggestions.length ≠ 0) :
    handleKeyDown s Key.arrowDown =
      ({ s with selectedIndex :=
          if s.selectedIndex < (s.suggestions.length : Int) - 1 then
            s.selectedIndex + 1
          else s.selectedIndex }, none) := by
  unfold handleKeyDown
  rw [if_neg (handleKeyDown_guard h1 h2)]

theorem handleKeyDown_arrowUp {s : AutoState} (h1 : s.isOpen = true)
    (h2 : s.suggestions.length ≠ 0) :
    handleKeyDown s Key.arrowUp =
      ({ s with selectedIndex :=
          if 0 < s.selectedIndex then s.selectedIndex - 1 else -1 }, none) := by
  unfold handleKeyDown
  rw [if_neg (handleKeyDown_guard h1 h2)]

theorem handleKeyDown_enter {s : AutoState} (h1 : s.isOpen = true)
    (h2 : s.suggestions.length ≠ 0) :
    handleKeyDown s Key.enter =
      if 0 ≤ s.selectedIndex ∧ s.selectedIndex < (s.suggestions.length : Int)
      then handleSelect s (s.suggestions.getD s.selectedIndex.toNat defaultCity)
      else (s, none) := by
  unfold handleKeyDown
  rw [if_neg (handleKeyDown_guard h1 h2)]

theorem handleKeyDown_escape {s : AutoState} (h1 : s.isOpen = true)
    (h2 : s.suggestions.length ≠ 0) :
    handleKeyDown s Key.escape = ({ s with isOpen := false }, none) := by
  unfold handleKeyDown
  rw [if_neg (handleKeyDown_guard h1 h2)]

theorem pressDown_def (t : AutoState) :
    pressDown t = (handleKeyDown t Key.arrowDown).1 := rfl

/-- Iterating ArrowDown keeps the rest of the state fixed and clamps the
cursor at len − 1. -/
theorem pressDown_iterate (s : AutoState) (h1 : s.isOpen = true)
    (hlen : 1 ≤ s.suggestions.length)
    (hhi : s.selectedIndex ≤ (s.suggestions.length : Int) - 1) :
    ∀ n : Nat, (pressDown^[n] s).value = s.value ∧
      (pressDown^[n] s).suggestions = s.suggestions ∧
      (pressDown^[n] s).isOpen = true ∧
      (pressDown^[n] s).selectedIndex =
        min (s.selectedIndex + n) ((s.suggestions.length : Int) - 1) := by
  intro n
  induction n with
  | zero =>
    refine ⟨rfl, rfl, h1, ?_⟩
    simp only [Function.iterate_zero, id_eq, Nat.cast_zero, add_zero]
    exact (min_eq_left hhi).symm
  | succ k ih =>
    obtain ⟨hv, hs, ho, hidx⟩ := ih
    rw [Function.iterate_succ_apply']
    have hlent : (pressDown^[k] s).suggestions.length ≠ 0 := by
      rw [hs]
      omega
    have hstep := handleKeyDown_arrowDown ho hlent
    rw [pressDown_def, hstep]
    dsimp only
    refine ⟨hv, hs, ho, ?_⟩
    rw [hs, hidx]
    push_cast
    split_ifs with hc
    · omega
    · omega

/-- C7: with the panel open over len ≥ 1 suggestions and the cursor in
[−1, len−1], ArrowDown and ArrowUp keep the cursor in [−1, len−1];
pressing ArrowDown len (or more) times from −1 lands and stays on len−1;
Enter commits the suggestion at the cursor when it is in [0, len−1] and is
a no-op at −1. -/
theorem keyboard_contract (s : AutoState) (hopen : s.isOpen = true)
    (hlen : 1 ≤ s.suggestions.length) (hlo : -1 ≤ s.selectedIndex)
    (hhi : s.selectedIndex ≤ (s.suggestions.length : Int) - 1) :
    (-1 ≤ (pressDown s).selectedIndex ∧
      (pressDown s).selectedIndex ≤ (s.suggestions.length : Int) - 1) ∧
    (-1 ≤ (handleKeyDown s Key.arrowUp).1.selectedIndex ∧
      (handleKeyDown s Key.arrowUp).1.selectedIndex ≤
        (s.suggestions.length : Int) - 1) ∧
    (s.selectedIndex = -1 → ∀ m : Nat,
      (pressDown^[s.suggestions.length + m] s).selectedIndex =
        (s.suggestions.length : Int) - 1) ∧
    (0 ≤ s.selectedIndex →
      handleKeyDown s Key.enter =
        handleSelect s
          (s.suggestions.getD s.selectedIndex.toNat defaultCity)) ∧
    (s.selectedIndex = -1 → handleKeyDown s Key.enter = (s, none)) := by
  have hlen0 : s.suggestions.length ≠ 0 := by omega
  refine ⟨?_, ?_, ?_, ?_, ?_⟩
  · rw [pressDown_def, handleKeyDown_arrowDown hopen hlen0]
    dsimp only
    split_ifs with hc
    · exact ⟨by omega, by omega⟩
    · exact ⟨by omega, by omega⟩
  · rw [handleKeyDown_arrowUp hopen hlen0]
    dsimp only
    split_ifs with hc
    · exact ⟨by omega, by omega⟩
    · exact ⟨by omega, by omega⟩
  · intro h0 m
    have := (pressDown_iterate s hopen hlen hhi (s.suggestions.length + m)).2.2.2
    rw [this, h0]
    push_cast
    omega
  · intro hge
    rw [handleKeyDown_enter hopen hlen0, if_pos ⟨hge, by omega⟩]
  · intro h0
    rw [handleKeyDown_enter hopen hlen0, if_neg]
    intro hc
    omega

/-- Concrete suggestions and state for the autocomplete witnesses. -/
def cityA : CitySuggestion :=
  { name := "Paris", country := "France", state := "", lat := 48, lon := 2 }

def cityB : CitySuggestion :=
  { name := "Parla", country := "Spain", state := "", lat := 40, lon := -3 }

def stateTwo : AutoState :=
  { value := "pa", suggestions := [cityA, cityB], isOpen := true,
    selectedIndex := -1 }

/-- C7 witness: the keyboard contract at a concrete open two-suggestion
state with no selection. -/
theorem keyboard_contract_instance :
    (-1 ≤ (pressDown stateTwo).selectedIndex ∧
      (pressDown stateTwo).selectedIndex ≤
        (stateTwo.suggestions.length : Int) - 1) ∧
    (-1 ≤ (handleKeyDown stateTwo Key.arrowUp).1.selectedIndex ∧
      (handleKeyDown stateTwo Key.arrowUp).1.selectedIndex ≤
        (stateTwo.suggestions.length : Int) - 1) ∧
    (stateTwo.selectedIndex = -1 → ∀ m : Nat,
      (pressDown^[stateTwo.suggestions.length + m] stateTwo).selectedIndex =
        (stateTwo.suggestions.length : Int) - 1) ∧
    (0 ≤ stateTwo.selectedIndex →
      handleKeyDown stateTwo Key.enter =
        handleSelect stateTwo
          (stateTwo.suggestions.getD stateTwo.selectedIndex.toNat
            defaultCity)) ∧
    (stateTwo.selectedIndex = -1 →
      handleKeyDown stateTwo Key.enter = (stateTwo, none)) :=
  keyboard_contract stateTwo rfl (by decide) (by decide) (by decide)

/-- C9: Escape with the panel open, and a click outside the component,
each close the panel and leave the input text, the suggestion list and the
selection cursor unchanged (and Escape commits nothing). -/
theorem escape_click_frame (s : AutoState) (hopen : s.isOpen = true)
    (hne : s.suggestions ≠ []) :
    ((handleKeyDown s Key.escape).1.isOpen = false ∧
      (handleKeyDown s Key.escape).1.value = s.value ∧
      (handleKeyDown s Key.escape).1.suggestions = s.suggestions ∧
      (handleKeyDown s Key.escape).1.selectedIndex = s.selectedIndex ∧
      (handleKeyDown s Key.escape).2 = none) ∧
    ((handleClickOutside s true).isOpen = false ∧
      (handleClickOutside s true).value = s.value ∧
      (handleClickOutside s true).suggestions = s.suggestions ∧
      (handleClickOutside s true).selectedIndex = s.selectedIndex) := by
  have hlen0 : s.suggestions.length ≠ 0 := by
    intro h
    exact hne (List.length_eq_zero.mp h)
  rw [handleKeyDown_escape hopen hlen0]
  exact ⟨⟨rfl, rfl, rfl, rfl, rfl⟩, rfl, rfl, rfl, rfl⟩

/-- C9 witness: the frame property at a concrete open state. -/
theorem escape_click_frame_instance :
    ((handleKeyDown stateTwo Key.escape).1.isOpen = false ∧
      (handleKeyDown stateTwo Key.escape).1.value = stateTwo.value ∧
      (handleKeyDown stateTwo Key.escape).1.suggestions =
        stateTwo.suggestions ∧
      (handleKeyDown stateTwo Key.escape).1.selectedIndex =
        stateTwo.selectedIndex ∧
      (handleKeyDown stateTwo Key.escape).2 = none) ∧
    ((handleClickOutside stateTwo true).isOpen = false ∧
      (handleClickOutside stateTwo true).value = stateTwo.value ∧
      (handleClickOutside stateTwo true).suggestions =
        stateTwo.suggestions ∧
      (handleClickOutside stateTwo true).selectedIndex =
        stateTwo.selectedIndex) :=
  escape_click_frame stateTwo rfl (by decide)

/-- C10: when a city-search query completes, the suggestion list is
replaced wholesale, the cursor is reset to −1, and the panel ends open
exactly when the result list is non-empty. -/
theorem query_completion (s : AutoState) (results : List CitySuggestion) :
    (queryComplete s results).suggestions = results ∧
    (queryComplete s results).selectedIndex = -1 ∧
    ((queryComplete s results).isOpen = true ↔ results ≠ []) := by
  refine ⟨rfl, rfl, ?_⟩
  show decide (0 < results.length) = true ↔ results ≠ []
  rw [decide_eq_true_eq]
  exact List.length_pos

end WeatherApp
